import Mathlib

/-!
Verification development for the memsearch repository: a semantic memory
search pipeline over markdown documents (chunking, embedding cache, Milvus
vector store, incremental indexing, flush compaction, file watcher).

The Python sources are embedded shallowly: pure functions become Lean
functions, the long-lived MemSearch/Milvus/cache state becomes explicit
state passing on a `SysState` record, fallible code returns `Except`.
External collaborators (the Milvus client, the embedding and summarization
backends, `json.loads`, the filesystem) are modelled at their documented
interface boundary: the Milvus collection is a list of records and the
client's insert/delete/search act on it by their documented filter
semantics; the backends are oracle function parameters; embedding vectors
are opaque `List Int` values that the core never computes with.
-/

/-- Embedding vectors are opaque data to the core: no arithmetic is ever
performed on their components, so they are modelled as integer lists. -/
abbrev Vector := List Int

/-- A chunk produced by the chunker (`chunker` module), matching the Chunk
fields consumed by `core.py`. -/
structure Chunk where
  content : String
  source : String
  heading : String
  heading_level : Nat
  start_line : Nat
  end_line : Nat
  chunk_hash : String
deriving Repr, DecidableEq

/-- A record as stored in the Milvus collection: the dict built by
`MemSearch._embed_and_store` (core.py lines 120-134). -/
structure Record where
  chunk_hash : String
  embedding : Vector
  content : String
  source : String
  heading : String
  heading_level : Nat
  start_line : Nat
  end_line : Nat
  doc_type : String
deriving Repr, DecidableEq

namespace MilvusStore

/-- The methods defined in class `MilvusStore` (store.py lines 9-137).
Used to model Python attribute lookup on a store instance: accessing any
other attribute raises `AttributeError`. -/
def methods : List String :=
  ["__init__", "_ensure_collection", "upsert", "search", "delete_by_source",
   "delete_by_hashes", "count", "drop", "close", "__enter__", "__exit__"]

/-- `MilvusStore.delete_by_hashes` (store.py lines 110-118): no-op on an
empty hash list, otherwise issues a delete with filter
`chunk_hash in [h1, ...]`, removing every record whose hash is listed. -/
def delete_by_hashes (hashes : List String) (store : List Record) : List Record :=
  if hashes.isEmpty then store
  else store.filter (fun r => !(hashes.contains r.chunk_hash))

/-- `MilvusStore.upsert` (store.py lines 59-74): returns 0 on an empty
batch; otherwise deletes existing records with the batch's hashes, then
inserts the batch, returning the insert count. -/
def upsert (chunks : List Record) (store : List Record) : Nat × List Record :=
  if chunks.isEmpty then (0, store)
  else
    let hashes := chunks.map (fun c => c.chunk_hash)
    let store1 := delete_by_hashes hashes store
    (chunks.length, store1 ++ chunks)

/-- `MilvusStore.delete_by_source` (store.py lines 103-108): deletes every
record whose `source` equals the argument (filter `source == "..."`). -/
def delete_by_source (source : String) (store : List Record) : List Record :=
  store.filter (fun r => !(r.source == source))

/-- The filter expressions `core.py` builds for search: none, or an
equality test on a named field (`source == "..."` or `doc_type == "..."`). -/
inductive FilterExpr where
  | noFilter
  | eqField (field : String) (value : String)
deriving Repr, DecidableEq

/-- Evaluation of a filter expression against one stored record. -/
def matchesFilter : FilterExpr → Record → Bool
  | .noFilter, _ => true
  | .eqField f v, r =>
    if f == "source" then r.source == v
    else if f == "doc_type" then r.doc_type == v
    else false

/-- `MilvusStore.search` (store.py lines 76-101): a similarity query
returning at most `topK` records that satisfy the filter.  Relevance
ordering is computed by the external engine (COSINE metric on `query`);
the model returns matches in store order, which is all the core's callers
depend on besides membership and emptiness. -/
def search (query : Vector) (topK : Nat) (filter : FilterExpr)
    (store : List Record) : List Record :=
  let _ := query
  (store.filter (matchesFilter filter)).take topK

/-- `MilvusStore.count` (store.py lines 120-123): the collection row count. -/
def count (store : List Record) : Nat := store.length

end MilvusStore

/-- One embedding-cache row: key `(content_hash, model)`, value the cached
vector (cache.py table `embeddings`; the creation timestamp is not
observable through any cache operation and is omitted). -/
abbrev CacheEntry := (String × String) × Vector

namespace EmbeddingCache

/-- `EmbeddingCache.get` (cache.py lines 37-45): cached vector or absent. -/
def get (cache : List CacheEntry) (content_hash model : String) : Option Vector :=
  (cache.find? (fun e => e.1.1 == content_hash && e.1.2 == model)).map (fun e => e.2)

/-- `EmbeddingCache.get_batch` (cache.py lines 47-60): an entry, possibly
absent, for every requested hash. -/
def get_batch (cache : List CacheEntry) (hashes : List String) (model : String) :
    List (String × Option Vector) :=
  hashes.map (fun h => (h, get cache h model))

/-- `EmbeddingCache.put` (cache.py lines 62-69): INSERT OR REPLACE keyed by
`(content_hash, model)`. -/
def put (cache : List CacheEntry) (content_hash model : String) (v : Vector) :
    List CacheEntry :=
  if cache.any (fun e => e.1.1 == content_hash && e.1.2 == model) then
    cache.map (fun e =>
      if e.1.1 == content_hash && e.1.2 == model then ((content_hash, model), v) else e)
  else cache ++ [((content_hash, model), v)]

/-- `EmbeddingCache.put_batch` (cache.py lines 71-82). -/
def put_batch (cache : List CacheEntry) (items : List (String × String × Vector)) :
    List CacheEntry :=
  items.foldl (fun c i => put c i.1 i.2.1 i.2.2) cache

/-- `EmbeddingCache.clear` (cache.py lines 84-93): delete everything, or
only one model's rows; Python truthiness makes `model=""` behave like
`model=None`.  Returns the remaining cache and the deleted row count. -/
def clear (cache : List CacheEntry) (model : Option String) : List CacheEntry × Nat :=
  match model with
  | some m =>
    if m == "" then ([], cache.length)
    else
      let kept := cache.filter (fun e => !(e.1.2 == m))
      (kept, cache.length - kept.length)
  | none => ([], cache.length)

end EmbeddingCache

/-- Character-list prefix test (structural, so that concrete runs reduce
inside the kernel). -/
def charsPrefix : List Char → List Char → Bool
  | [], _ => true
  | _ :: _, [] => false
  | a :: xs, b :: ys => a == b && charsPrefix xs ys

/-- `str.startswith(pre)`. -/
def pyStartsWith (s pre : String) : Bool := charsPrefix pre.toList s.toList

/-- `str.lower()`. -/
def pyToLower (s : String) : String := (s.toList.map Char.toLower).asString

/-- `str.split("\n")` on the character list (structural recursion). -/
def splitNl : List Char → List (List Char)
  | [] => [[]]
  | c :: cs =>
    let r := splitNl cs
    if c == '\n' then [] :: r
    else (c :: r.headD []) :: r.tail

/-- A document's lines, as `text.splitlines()` feeds them to the chunker. -/
def linesOf (text : String) : List String :=
  (splitNl text.toList).map List.asString

/-- A heading line in the markdown sense: the line starts with `#`. -/
def isHeadingLine (l : String) : Bool := pyStartsWith l "#"

/-- Number of leading `#` characters of a heading line. -/
def headingLevel (l : String) : Nat :=
  (l.toList.takeWhile (fun c => c == '#')).length

/-- Heading text: the line with its leading `#`s stripped and trimmed. -/
def headingText (l : String) : String :=
  ((l.toList.dropWhile (fun c => c == '#')).asString).trim

/-- One step of grouping numbered lines into heading-bounded runs: a
heading line opens a new group, any other line extends the last group
(or opens the pre-heading preamble group). -/
def pushLine (acc : List (List (Nat × String))) (l : Nat × String) :
    List (List (Nat × String)) :=
  if isHeadingLine l.2 then acc ++ [[l]]
  else
    match acc.getLast? with
    | none => [[l]]
    | some g => acc.dropLast ++ [g ++ [l]]

/-- Group a document's numbered lines into heading-bounded runs. -/
def chunkGroups (lines : List (Nat × String)) : List (List (Nat × String)) :=
  lines.foldl pushLine []

/-- Build one Chunk from a heading-bounded run of numbered lines.  The
content digest is modelled as the content itself: a deterministic,
collision-free identity, the idealization of the cryptographic hash the
spec requires (identical text gives identical identity, distinct text
distinct identity). -/
def chunkOfGroup (source : String) (g : List (Nat × String)) : Chunk :=
  let content := String.intercalate "\n" (g.map (fun l => l.2))
  let first := g.headD (0, "")
  { content := content
    source := source
    heading := if isHeadingLine first.2 then headingText first.2 else ""
    heading_level := if isHeadingLine first.2 then headingLevel first.2 else 0
    start_line := first.1 + 1
    end_line := (g.getLastD (0, "")).1 + 1
    chunk_hash := content }

/-- Modelled from the spec: the Chunker.  `chunker.py` is imported by
`core.py` but is not in the source tree, so this follows spec section 4.1:
markdown text splits into heading-bounded chunks (a new chunk begins at
each heading line, inheriting that heading and its level; content before
the first heading becomes a chunk with no heading), every line belongs to
exactly one chunk, empty input produces zero chunks, and `chunk_hash` is a
pure deterministic function of the chunk content alone. -/
def chunk_markdown (text : String) (source : String) : List Chunk :=
  if text == "" then []
  else (chunkGroups (linesOf text).enum).map (chunkOfGroup source)

/-- The long-lived state of one MemSearch deployment: the Milvus
collection, the SQLite embedding cache, and observation traces recording
every embedding-backend and summarization-backend invocation (each
embedding entry is the model name with the batch of texts sent, each
summarization entry the number of retrieved records passed). -/
structure SysState where
  store : List Record
  cache : List CacheEntry
  embedTrace : List (String × List String)
  summarizeTrace : List Nat
deriving Repr, DecidableEq

/-- `MemSearch._embed_and_store` (core.py lines 111-136): on a non-empty
chunk list it sends the full batch of chunk contents to the embedding
backend, builds one record per chunk, and upserts them, returning the
count.  The backend contract (spec section 6) returns one vector per input
text, in order; `embedFn` is that external oracle.  Note the function
neither reads nor writes the `cache` component: core.py never touches the
EmbeddingCache. -/
def embedAndStore (embedFn : List String → List Vector) (modelName : String)
    (chunks : List Chunk) (doc_type : String) (st : SysState) : Nat × SysState :=
  if chunks.isEmpty then (0, st)
  else
    let contents := chunks.map (fun c => c.content)
    let embeddings := embedFn contents
    let records := (chunks.zip embeddings).map (fun p =>
      { chunk_hash := p.1.chunk_hash
        embedding := p.2
        content := p.1.content
        source := p.1.source
        heading := p.1.heading
        heading_level := p.1.heading_level
        start_line := p.1.start_line
        end_line := p.1.end_line
        doc_type := doc_type })
    let (n, store1) := MilvusStore.upsert records st.store
    (n, { st with store := store1, embedTrace := st.embedTrace ++ [(modelName, contents)] })

/-- Modelled from the spec: the Vector Store contract operation
`existingIdentities(hashes) -> subset present` (spec section 6), which
`core.py` expects the store to provide.  No file in the source tree
defines it. -/
def existingIdentities (hashes : List String) (store : List Record) : List String :=
  hashes.filter (fun h => store.any (fun r => r.chunk_hash == h))

/-- The call `self._store.existing_hashes(all_hashes)` in
`MemSearch._index_file` (core.py line 104): Python attribute lookup on the
MilvusStore instance.  `MilvusStore` declares no `existing_hashes` method
(see `MilvusStore.methods`), so the lookup raises `AttributeError`; were
the method present, the spec contract says it would return the subset of
the hashes already stored. -/
def storeExistingHashes (hashes : List String) (store : List Record) :
    Except String (List String) :=
  if MilvusStore.methods.contains "existing_hashes" then
    Except.ok (existingIdentities hashes store)
  else
    Except.error "AttributeError: MilvusStore object has no attribute existing_hashes"

/-- `MemSearch._index_file` (core.py lines 95-109), applied to the text of
the scanned file: chunk the document; on an incremental pass (not forced)
drop chunks whose hash the store already holds, returning 0 if none
survive; embed and upsert the survivors as `markdown` records. -/
def indexFile (embedFn : List String → List Vector) (modelName : String)
    (text : String) (source : String) (force : Bool) (st : SysState) :
    Except String (Nat × SysState) :=
  let chunks := chunk_markdown text source
  if chunks.isEmpty then Except.ok (0, st)
  else if force then Except.ok (embedAndStore embedFn modelName chunks "markdown" st)
  else
    match storeExistingHashes (chunks.map (fun c => c.chunk_hash)) st.store with
    | Except.error e => Except.error e
    | Except.ok existing =>
      let surviving := chunks.filter (fun c => !(existing.contains c.chunk_hash))
      if surviving.isEmpty then Except.ok (0, st)
      else Except.ok (embedAndStore embedFn modelName surviving "markdown" st)

/-- Modelled from the spec: `flush_chunks` (module `flush`, imported by
core.py but not in the source tree).  Per the summarization backend
contract (spec sections 4.7 and 6) it passes the retrieved records to the
external summarizer and yields its single markdown string; the trace
records the invocation. -/
def flush_chunks (summarizeFn : List Record → String) (chunks : List Record)
    (st : SysState) : String × SysState :=
  (summarizeFn chunks, { st with summarizeTrace := st.summarizeTrace ++ [chunks.length] })

/-- The filter expression `MemSearch.flush` builds (core.py line 199):
`source == "..."` when a source is given, no filter otherwise (Python
truthiness also drops an empty-string source). -/
def flushFilterOf (source : Option String) : MilvusStore.FilterExpr :=
  match source with
  | some s => if s == "" then MilvusStore.FilterExpr.noFilter
              else MilvusStore.FilterExpr.eqField "source" s
  | none => MilvusStore.FilterExpr.noFilter

/-- `MemSearch.flush` (core.py lines 176-218): retrieve every chunk
matching the optional source filter via a dummy-vector search with a large
cap; if none match, return the empty summary; otherwise summarize them,
chunk the summary under the synthetic source `flush://memory`, and embed
and upsert those chunks tagged `flush`. -/
def MemSearch.flush (embedFn : List String → List Vector) (modelName : String)
    (summarizeFn : List Record → String) (dimension : Nat)
    (source : Option String) (st : SysState) : SysState × String :=
  let dummy_emb : Vector := List.replicate dimension 0
  let all_chunks := MilvusStore.search dummy_emb 10000 (flushFilterOf source) st.store
  if all_chunks.isEmpty then (st, "")
  else
    let (summary, st1) := flush_chunks summarizeFn all_chunks st
    let fl := chunk_markdown summary "flush://memory"
    let (_, st2) := embedAndStore embedFn modelName fl "flush" st1
    (st2, summary)

/-- `MemSearch.search` (core.py lines 142-170): embed the query as a
single-item batch, then issue one store query with an optional `doc_type`
equality filter. -/
def MemSearch.search (embedFn : List String → List Vector) (modelName : String)
    (query : String) (top_k : Nat) (doc_type : Option String) (st : SysState) :
    List Record × SysState :=
  let embeddings := embedFn [query]
  let st1 := { st with embedTrace := st.embedTrace ++ [(modelName, [query])] }
  let filter := match doc_type with
    | some t => if t == "" then MilvusStore.FilterExpr.noFilter
                else MilvusStore.FilterExpr.eqField "doc_type" t
    | none => MilvusStore.FilterExpr.noFilter
  (MilvusStore.search (embeddings.headD []) top_k filter st1.store, st1)

/-- A filesystem entry as the watcher and parsers observe it: a regular
file with its text, or a directory. -/
inductive FsEntry where
  | fileEntry (content : String)
  | dirEntry
deriving Repr, DecidableEq

/-- The filesystem as a finite map from path strings to entries. -/
abbrev FileSystem := List (String × FsEntry)

/-- The watcher callback `_on_change` defined inside `MemSearch.watch`
(core.py lines 259-268): a `deleted` event deletes every store record
whose source is the path; any other event re-indexes the file at the path
through `MemSearch.index_file`, which stats and reads it (raising if the
path is gone or is a directory) and runs an incremental `_index_file`
pass. -/
def onChange (embedFn : List String → List Vector) (modelName : String)
    (fs : FileSystem) (event_type : String) (file_path : String) (st : SysState) :
    Except String SysState :=
  if event_type == "deleted" then
    Except.ok { st with store := MilvusStore.delete_by_source file_path st.store }
  else
    match fs.lookup file_path with
    | some (FsEntry.fileEntry text) =>
      (indexFile embedFn modelName text file_path false st).map (fun p => p.2)
    | some FsEntry.dirEntry => Except.error "IsADirectoryError"
    | none => Except.error "FileNotFoundError"

/-- Keyword names `MilvusStore.__init__` accepts (store.py lines 14-19):
`uri` and the keyword-only `dimension`; the signature has no `**kwargs`. -/
def milvusStoreInitKeywords : List String := ["uri", "dimension"]

/-- Keyword arguments `MemSearch.__init__` passes to `MilvusStore`
(core.py lines 56-58): `uri`, `token`, `dimension`. -/
def memSearchStoreCallKeywords : List String := ["uri", "token", "dimension"]

/-- Python keyword-argument binding for a call on a function without
`**kwargs`: the first passed keyword the signature does not accept raises
`TypeError`. -/
def pyBindKeywords (accepted : List String) (passed : List String) :
    Except String Unit :=
  match passed.find? (fun k => !(accepted.contains k)) with
  | some k => Except.error ("TypeError: unexpected keyword argument " ++ k)
  | none => Except.ok ()

/-- The embedding provider identity `get_provider` yields: its model name
and vector dimension (the `embeddings` package initializer is not in the
source tree; providers are external backends, so construction is an
oracle `Except` value that may itself fail, e.g. on a missing API key). -/
structure ProviderInfo where
  model_name : String
  dimension : Nat
deriving Repr, DecidableEq

/-- `MemSearch.__init__` (core.py lines 43-58): normalize paths, construct
the embedding provider, then construct the store via
`MilvusStore(uri=..., token=..., dimension=...)`.  The keyword binding of
that call is checked against `MilvusStore.__init__`'s signature; on
success the constructed instance would carry the paths and provider. -/
def MemSearch.init (paths : List String) (provider : Except String ProviderInfo)
    (milvus_uri : String) (milvus_token : Option String) :
    Except String (List String × ProviderInfo) :=
  let _ := milvus_uri
  let _ := milvus_token
  match provider with
  | Except.error e => Except.error e
  | Except.ok p =>
    match pyBindKeywords milvusStoreInitKeywords memSearchStoreCallKeywords with
    | Except.error e => Except.error e
    | Except.ok _ => Except.ok (paths, p)

/-- A JSON value as `json.loads` yields it (numbers restricted to the
integers the session logs use; floats never reach a code path a claim
concerns). -/
inductive JValue where
  | jnull
  | jbool (b : Bool)
  | jnum (n : Int)
  | jstr (s : String)
  | jarr (elems : List JValue)
  | jobj (fields : List (String × JValue))

/-- Dictionary lookup `d.get(k)` on a parsed JSON object. -/
def jlookup (fields : List (String × JValue)) (k : String) : Option JValue :=
  (fields.find? (fun f => f.1 == k)).map (fun f => f.2)

mutual
/-- Python equality on parsed JSON values, as dictionary key comparison
uses it.  (Python would reject unhashable list/dict keys before comparing;
no session-log claim exercises that path.) -/
def beqJ : JValue → JValue → Bool
  | .jnull, .jnull => true
  | .jbool a, .jbool b => a == b
  | .jnum a, .jnum b => a == b
  | .jstr a, .jstr b => a == b
  | .jarr a, .jarr b => beqJList a b
  | .jobj a, .jobj b => beqJFields a b
  | _, _ => false

def beqJList : List JValue → List JValue → Bool
  | [], [] => true
  | x :: xs, y :: ys => beqJ x y && beqJList xs ys
  | _, _ => false

def beqJFields : List (String × JValue) → List (String × JValue) → Bool
  | [], [] => true
  | x :: xs, y :: ys => x.1 == y.1 && beqJ x.2 y.2 && beqJFields xs ys
  | _, _ => false
end

mutual
/-- Python `repr` of a parsed JSON value (the shape `str` shows for
containers); only its totality matters to the claims. -/
def pyRepr : JValue → String
  | .jnull => "None"
  | .jbool b => if b then "True" else "False"
  | .jnum n => toString n
  | .jstr s => "\x27" ++ s ++ "\x27"
  | .jarr xs => "[" ++ String.intercalate ", " (pyReprList xs) ++ "]"
  | .jobj fields => "\x7b" ++ String.intercalate ", " (pyReprFields fields) ++ "\x7d"

def pyReprList : List JValue → List String
  | [] => []
  | x :: xs => pyRepr x :: pyReprList xs

def pyReprFields : List (String × JValue) → List String
  | [] => []
  | f :: fs => ("\x27" ++ f.1 ++ "\x27: " ++ pyRepr f.2) :: pyReprFields fs
end

/-- Python `str` of a parsed JSON value: a string is itself, scalars print
Python-style, containers print their repr. -/
def pyStr : JValue → String
  | .jstr s => s
  | v => pyRepr v

/-- Whether a content block is a dict whose declared `type` is `text`
(the test `isinstance(block, dict) and block.get("type") == "text"`,
session.py line 72). -/
def isTextBlock (fields : List (String × JValue)) : Bool :=
  match jlookup fields "type" with
  | some (JValue.jstr s) => s == "text"
  | _ => false

/-- `block.get("text", "")` of a text block (session.py line 73): the raw
JSON value under the `text` key, defaulting to the empty string when the
key is absent.  Python appends this value to `text_parts` as-is, string or
not. -/
def blockTextOf (fields : List (String × JValue)) : JValue :=
  (jlookup fields "text").getD (JValue.jstr "")

/-- One iteration of the block loop of `parse_session_file` (session.py
lines 70-75): a dict block typed `text` appends its raw text value to
`text_parts`, a bare string block appends itself, anything else is
skipped. -/
def contentStep (acc : List JValue) (b : JValue) : List JValue :=
  match b with
  | JValue.jobj fields => if isTextBlock fields then acc ++ [blockTextOf fields] else acc
  | JValue.jstr s => acc ++ [JValue.jstr s]
  | _ => acc

/-- The block loop of `parse_session_file` (session.py lines 70-75),
accumulating `text_parts` in order. -/
def contentParts (blocks : List JValue) : List JValue :=
  blocks.foldl contentStep []

/-- `str.join`'s view of the accumulated parts: every part must be a
string, and a non-string part raises `TypeError` (the first offender, as
in CPython). -/
def asStrings : List JValue → Except String (List String)
  | [] => Except.ok []
  | JValue.jstr s :: rest => (asStrings rest).map (fun ss => s :: ss)
  | _ :: _ => Except.error "TypeError: sequence item: expected str instance"

/-- `"\n".join(text_parts)` (session.py line 76): joins string parts,
raises `TypeError` on a non-string part. -/
def pyJoinNl (parts : List JValue) : Except String String :=
  (asStrings parts).map (String.intercalate "\n")

/-- Content extraction of `parse_session_file` (session.py lines 66-78):
a list joins its collected parts with newline — raising `TypeError` when
a text-typed block carried a non-string `text` value — and anything else
is `str`-ed. -/
def extractContent : JValue → Except String String
  | JValue.jarr blocks => pyJoinNl (contentParts blocks)
  | v => Except.ok (pyStr v)

/-- `SessionMessage` (session.py lines 10-16); `role` and `timestamp` keep
the raw JSON values Python would store in the dataclass. -/
structure SessionMessage where
  role : JValue
  content : String
  timestamp : JValue

/-- `Session` (session.py lines 19-33); the session id keeps the raw JSON
value used as the grouping key. -/
structure Session where
  session_id : JValue
  messages : List SessionMessage
  source : String

/-- Appending a message under a session id, preserving first-seen id order
(the `messages_by_session` dict plus `session_ids_order` list, session.py
lines 85-91). -/
def insertMessage (st : List (JValue × List SessionMessage)) (sid : JValue)
    (m : SessionMessage) : List (JValue × List SessionMessage) :=
  if st.any (fun p => beqJ p.1 sid) then
    st.map (fun p => if beqJ p.1 sid then (p.1, p.2 ++ [m]) else p)
  else st ++ [(sid, [m])]

/-- Processing one parsed record object (session.py lines 58-91): skip
records not typed `user`/`assistant`; group by `sessionId` (default
`"unknown"`); a non-dict `message` value makes `message.get` raise
`AttributeError`; resolve the role (default: the record type), extract the
content — which raises `TypeError` when a list-shaped content holds a
text-typed block with a non-string text value — and drop records whose
content trims to empty. -/
def processRecord (fields : List (String × JValue))
    (st : List (JValue × List SessionMessage)) :
    Except String (List (JValue × List SessionMessage)) := do
  let msg_type := (jlookup fields "type").getD (JValue.jstr "")
  let isTurn := match msg_type with
    | JValue.jstr s => s == "user" || s == "assistant"
    | _ => false
  if !isTurn then return st
  let session_id := (jlookup fields "sessionId").getD (JValue.jstr "unknown")
  let message := (jlookup fields "message").getD (JValue.jobj [])
  let mfields ← match message with
    | JValue.jobj fs => pure fs
    | _ => Except.error "AttributeError: message object has no attribute get"
  let role := (jlookup mfields "role").getD msg_type
  let content_raw := (jlookup mfields "content").getD (JValue.jstr "")
  let content ← extractContent content_raw
  if content.trim == "" then return st
  let timestamp := (jlookup fields "timestamp").getD (JValue.jstr "")
  return insertMessage st session_id { role := role, content := content, timestamp := timestamp }

/-- `parse_session_file` (session.py lines 36-101).  The filesystem and
`json.loads` are external: `fs` maps paths to entries and `jsonParse`
models the JSON decoder (`none` meaning `JSONDecodeError`).  A path at
which nothing exists returns no sessions; a path `Path.exists()` accepts
but `read_text` cannot read (a directory) raises; otherwise each non-blank
line is decoded (undecodable lines skipped; a decoded non-object raises at
`obj.get`), records are grouped into sessions, and sessions that kept at
least one message are returned in first-seen order. -/
def parse_session_file (jsonParse : String → Option JValue) (fs : FileSystem)
    (path : String) : Except String (List Session) :=
  match fs.lookup path with
  | none => Except.ok []
  | some FsEntry.dirEntry => Except.error "IsADirectoryError"
  | some (FsEntry.fileEntry text) => do
    let groups ← (linesOf text).foldlM (fun st line => do
        let stripped := line.trim
        if stripped == "" then pure st
        else
          match jsonParse stripped with
          | none => pure st
          | some (JValue.jobj fields) => processRecord fields st
          | some _ => Except.error "AttributeError: record object has no attribute get"
      ) ([] : List (JValue × List SessionMessage))
    pure ((groups.filter (fun p => !p.2.isEmpty)).map (fun p =>
      { session_id := p.1, messages := p.2, source := path }))

/-- A filesystem subtree as the scanner traverses it: regular files and
directories with named children. -/
inductive FS where
  | file (name : String)
  | dir (name : String) (children : List FS)

/-- The name of a filesystem node. -/
def fsName : FS → String
  | .file n => n
  | .dir n _ => n

/-- The file entries one walked directory emits (the `filenames` loop of
scanner.py lines 42-46): each contained file's path, skipping hidden file
names when `ih`. -/
def hereFiles (ih : Bool) (p : List String) (children : List FS) : List (List String) :=
  children.foldr (fun c acc =>
    match c with
    | FS.file f => if ih && pyStartsWith f "." then acc else (p ++ [f]) :: acc
    | FS.dir _ _ => acc) []

mutual
/-- `os.walk` over one directory as `scan_paths` drives it (scanner.py
lines 39-46): emit each contained file's path (skipping hidden file names
when `ignore_hidden`), and descend into subdirectories; with
`ignore_hidden` the hidden subdirectories are removed from `dirnames`
before descending, so their entire subtrees are never visited.  Paths are
segment lists; walking a non-directory yields nothing. -/
def walkFS (ih : Bool) (dirpath : List String) : FS → List (List String)
  | .file _ => []
  | .dir n children =>
    let p := dirpath ++ [n]
    hereFiles ih p children ++ walkChildren ih p children

/-- Recursion of `walkFS` over a directory's children: hidden
subdirectories are pruned (never walked), all others are walked. -/
def walkChildren (ih : Bool) (p : List String) : List FS → List (List String)
  | [] => []
  | c :: cs =>
    (match c with
     | FS.dir d _ => if ih && pyStartsWith d "." then [] else walkFS ih p c
     | FS.file _ => []) ++ walkChildren ih p cs
end

/-- `pathlib` suffix of a file name: the part from the last dot on, empty
when the only dot is leading or trailing. -/
def pySuffix (name : String) : String :=
  let cs := name.toList
  match ((List.range cs.length).filter (fun i => cs.getD i ' ' == '.')).getLast? with
  | some i => if 0 < i ∧ i + 1 < cs.length then (cs.drop i).asString else ""
  | none => ""

/-- The extension allow-list `scan_paths` defaults to. -/
def scanExtensions : List String := [".md", ".markdown"]

/-- The scanner's running state: resolved paths already seen, and the
result list in discovery order. -/
structure ScanState where
  seen : List String
  results : List (List String)

/-- A path rendered the way the dedup set and the sort key see it. -/
def pathKey (q : List String) : String := String.intercalate "/" q

/-- `_maybe_add` (scanner.py lines 52-65): keep only files whose
lower-cased suffix is allow-listed, deduplicate by resolved path, append
otherwise. -/
def maybeAdd (st : ScanState) (q : List String) : ScanState :=
  if !(scanExtensions.contains (pyToLower (pySuffix (q.getLastD "")))) then st
  else if st.seen.contains (pathKey q) then st
  else { seen := st.seen ++ [pathKey q], results := st.results ++ [q] }

/-- The candidate paths one root contributes (scanner.py lines 34-46): a
file root goes straight to `_maybe_add` — with no hidden-name check — and
a directory root is walked. -/
def scanRoot (ih : Bool) : FS → List (List String)
  | FS.file n => [[n]]
  | FS.dir n children => walkFS ih [] (FS.dir n children)

/-- Lexicographic order on character lists (structural, so that concrete
scans reduce inside the kernel). -/
def charsLe : List Char → List Char → Bool
  | [], _ => true
  | _ :: _, [] => false
  | a :: xs, b :: ys => if a == b then charsLe xs ys else Nat.blt a.toNat b.toNat

/-- Path comparison for the scanner's final sort. -/
def pathLe (x y : List String) : Bool := charsLe (pathKey x).toList (pathKey y).toList

/-- Insertion of a path into a list sorted by `pathKey`. -/
def insertByKey (x : List String) : List (List String) → List (List String)
  | [] => [x]
  | y :: ys => if pathLe x y then x :: y :: ys else y :: insertByKey x ys

/-- The final `results.sort(key=path)` (scanner.py line 48). -/
def sortByKey : List (List String) → List (List String)
  | [] => []
  | x :: xs => insertByKey x (sortByKey xs)

/-- `scan_paths` (scanner.py lines 19-49) on defaults-shaped inputs:
candidates from every root pass through `_maybe_add` (extension filter and
dedup), and the result is sorted by path. -/
def scan_paths (roots : List FS) (ignore_hidden : Bool) : List (List String) :=
  let st := roots.foldl (fun st r => (scanRoot ignore_hidden r).foldl maybeAdd st)
    { seen := [], results := [] }
  sortByKey st.results

/-! ## Claim analysis -/

/-- A deterministic stand-in for the external embedding backend used to
evaluate concrete runs: one fixed vector per input text. -/
def constEmbedFn : List String → List Vector := fun ts => ts.map (fun _ => [0])

/-- A fresh deployment state: empty store, empty cache, no backend calls. -/
def sysState0 : SysState :=
  { store := [], cache := [], embedTrace := [], summarizeTrace := [] }

/-- Initial state for the cache claim: the embedding cache already holds
the vector for the pair (content hash of "hello", model "m"). -/
def c1State0 : SysState :=
  { store := [], cache := [(("hello", "m"), [3])], embedTrace := [], summarizeTrace := [] }

/-- Two successive forced indexing passes of the one-chunk document
"hello" — a sequence of indexing operations that never clears the cache. -/
def c1Run : Except String SysState := do
  let r1 ← indexFile constEmbedFn "m" "hello" "a.md" true c1State0
  let r2 ← indexFile constEmbedFn "m" "hello" "a.md" true r1.2
  pure r2.2

/-- C1: the claim is refuted by the pipeline code.  Across two indexing
operations on the same one-chunk document (content "hello", model "m"),
with no cache clear anywhere in the sequence and with the cache already
holding that very (content hash, model) pair from the start, the embedding
backend is invoked twice with that content, and the cache is left exactly
as it began: `MemSearch._embed_and_store` sends every batch straight to
the backend and never consults or populates the EmbeddingCache. -/
theorem c1_backend_invoked_twice_for_same_pair :
    c1Run.map (fun st => (st.embedTrace, st.cache))
      = Except.ok ([("m", ["hello"]), ("m", ["hello"])], [(("hello", "m"), [3])]) := by
  rfl

/-- C2: confirmed.  For every combination of constructor arguments —
any paths, any provider-construction outcome, any URI and token —
`MemSearch.__init__` never completes; and whenever provider construction
itself succeeds, the failure is exactly the `TypeError` raised by passing
the keyword `token` to `MilvusStore.__init__`, which accepts only `uri`
and `dimension`. -/
theorem c2_no_memsearch_instance_constructible :
    ∀ (paths : List String) (provider : Except String ProviderInfo)
      (uri : String) (token : Option String),
      (MemSearch.init paths provider uri token).isOk = false ∧
      (∀ p : ProviderInfo, provider = Except.ok p →
        MemSearch.init paths provider uri token
          = Except.error "TypeError: unexpected keyword argument token") := by
  intro paths provider uri token
  refine ⟨?_, ?_⟩
  · cases provider <;> rfl
  · intro p hp
    subst hp
    rfl

/-- Witness for C2 at the default constructor arguments, with a provider
whose construction succeeded. -/
theorem c2_witness :
    (MemSearch.init [] (Except.ok { model_name := "text-embedding-3-small", dimension := 1536 })
      "~/.memsearch/milvus.db" none).isOk = false ∧
    MemSearch.init [] (Except.ok { model_name := "text-embedding-3-small", dimension := 1536 })
      "~/.memsearch/milvus.db" none
      = Except.error "TypeError: unexpected keyword argument token" :=
  ⟨(c2_no_memsearch_instance_constructible [] _ "~/.memsearch/milvus.db" none).1,
   (c2_no_memsearch_instance_constructible [] _ "~/.memsearch/milvus.db" none).2 _ rfl⟩

/-- C3: the code contradicts the claim.  An incremental (non-forced)
indexing pass over the one-chunk document "hello" — from any store,
cache and trace state whatsoever — raises `AttributeError` at the call
`self._store.existing_hashes(all_hashes)`, because `MilvusStore` defines
no `existing_hashes` method; the store is never consulted and no chunk is
embedded or upserted. -/
theorem c3_incremental_pass_raises_attribute_error :
    ∀ st : SysState,
      indexFile constEmbedFn "m" "hello" "a.md" false st
        = Except.error "AttributeError: MilvusStore object has no attribute existing_hashes" := by
  intro st
  rfl

/-- Number of stored records for one document source. -/
def countBySource (s : String) (store : List Record) : Nat :=
  store.countP (fun r => r.source == s)

/-- C4: the claim holds for a forced second pass but the code contradicts
its incremental half.  Starting from a fresh state, a first forced pass
over the unchanged document "hello" stores one chunk; a second forced
pass completes and leaves the document's chunk count at one (identity-
keyed delete-then-insert); but a second *incremental* pass over the same
unchanged document raises `AttributeError` (no `existing_hashes` on
`MilvusStore`) instead of completing without error. -/
theorem c4_second_pass_forced_idempotent_incremental_raises :
    ∃ st1 st2 : SysState,
      indexFile constEmbedFn "m" "hello" "a.md" true sysState0 = Except.ok (1, st1) ∧
      countBySource "a.md" st1.store = 1 ∧
      indexFile constEmbedFn "m" "hello" "a.md" true st1 = Except.ok (1, st2) ∧
      countBySource "a.md" st2.store = 1 ∧
      indexFile constEmbedFn "m" "hello" "a.md" false st1
        = Except.error "AttributeError: MilvusStore object has no attribute existing_hashes" := by
  exact ⟨_, _, rfl, rfl, rfl, rfl, rfl⟩

/-- Number of stored records carrying one chunk hash. -/
def countByHash (h : String) (store : List Record) : Nat :=
  store.countP (fun r => r.chunk_hash == h)

/-- A record as `_embed_and_store` would build it for the chunk "x". -/
def c5recA : Record :=
  { chunk_hash := "x", embedding := [1], content := "x", source := "a.md",
    heading := "", heading_level := 0, start_line := 1, end_line := 1,
    doc_type := "markdown" }

/-- The same passage repeated later in the same document: identical
content, hence identical content-addressed hash. -/
def c5recB : Record := { c5recA with start_line := 5, end_line := 5 }

/-- A previously stored record with the same hash from another document. -/
def c5recOld : Record := { c5recA with source := "b.md", embedding := [2] }

/-- C5 counterexample: the claim fails as stated on a batch containing two
records with the same chunk hash (a passage repeated inside one document —
the spec's content-addressing makes such collisions legal).  The hash "x"
appears in the batch, yet after the upsert the store holds two records
with that hash, not exactly one: delete-then-insert removes prior records
but inserts the whole batch verbatim. -/
theorem c5_counterexample :
    "x" ∈ [c5recA, c5recB].map (fun r => r.chunk_hash) ∧
    countByHash "x" (MilvusStore.upsert [c5recA, c5recB] []).2 = 2 := by
  exact ⟨by decide, by decide⟩

/-- Record survival under `delete_by_hashes`: a surviving record's hash
beq-compares false against every deleted hash. -/
theorem mem_delete_by_hashes_beq_false {hashes : List String} {store : List Record}
    {a : Record} {h : String} (ha : a ∈ MilvusStore.delete_by_hashes hashes store)
    (hh : h ∈ hashes) : (a.chunk_hash == h) = false := by
  unfold MilvusStore.delete_by_hashes at ha
  have hne : hashes.isEmpty = false := by
    cases hashes
    · simp at hh
    · rfl
  rw [hne] at ha
  simp only [Bool.false_eq_true, if_false] at ha
  rcases List.mem_filter.mp ha with ⟨_, hpred⟩
  by_contra hcon
  rw [Bool.not_eq_false] at hcon
  have : a.chunk_hash = h := by simpa using hcon
  subst this
  rw [List.contains_eq_any_beq] at hpred
  have : hashes.any (a.chunk_hash == ·) = true :=
    List.any_eq_true.mpr ⟨a.chunk_hash, hh, by simp⟩
  simp [this] at hpred

/-- C5 amended: when the batch's chunk hashes are pairwise distinct, the
claim holds — after the upsert returns, the store holds exactly one
record for each chunk hash appearing in the batch, whatever records (with
those hashes or not) it held before: re-upserting replaces rather than
duplicates. -/
theorem c5_upsert_unique_per_hash :
    ∀ (batch store : List Record) (h : String),
      (batch.map (fun r => r.chunk_hash)).Nodup →
      h ∈ batch.map (fun r => r.chunk_hash) →
      countByHash h (MilvusStore.upsert batch store).2 = 1 := by
  intro batch store h hnd hmem
  have hne : batch.isEmpty = false := by
    cases batch
    · simp at hmem
    · rfl
  unfold MilvusStore.upsert
  rw [hne]
  simp only [Bool.false_eq_true, if_false]
  unfold countByHash
  rw [List.countP_append]
  have h0 : (MilvusStore.delete_by_hashes (batch.map (fun r => r.chunk_hash)) store).countP
      (fun r => r.chunk_hash == h) = 0 := by
    apply List.countP_eq_zero.mpr
    intro a ha hcon
    have := mem_delete_by_hashes_beq_false ha hmem
    simp only [this] at hcon
    exact absurd hcon (by simp)
  have h1 : batch.countP (fun r => r.chunk_hash == h) = 1 := by
    have h2 := List.count_eq_one_of_mem hnd hmem
    rw [List.count_eq_countP, List.countP_map] at h2
    exact h2
  rw [h0, h1]

/-- Witness for C5 at a concrete input with a hypothesis-satisfying batch:
a single-record batch whose hash is already stored (under another source)
ends with exactly one record for that hash — the old record was replaced. -/
theorem c5_witness :
    ([c5recA].map (fun r => r.chunk_hash)).Nodup ∧
    "x" ∈ [c5recA].map (fun r => r.chunk_hash) ∧
    countByHash "x" (MilvusStore.upsert [c5recA] [c5recOld]).2 = 1 :=
  ⟨by decide, by decide,
   c5_upsert_unique_per_hash [c5recA] [c5recOld] "x" (by decide) (by decide)⟩

/-- The per-block contribution of the session content loop (as a raw JSON
value): a dict block declared `text` contributes its raw text value, a
bare string block contributes itself, every other block contributes
nothing. -/
def c6part : JValue → Option JValue
  | JValue.jobj fields => if isTextBlock fields then some (blockTextOf fields) else none
  | JValue.jstr s => some (JValue.jstr s)
  | _ => none

/-- The string a text-typed block contributes under the amended claim's
side condition (its text value when that is a string, the default empty
string when the key is absent). -/
def blockTextStr (fields : List (String × JValue)) : String :=
  match jlookup fields "text" with
  | some (JValue.jstr s) => s
  | _ => ""

/-- The per-block contribution as the amended claim words it: the text of
a text-typed dict block, a bare string block verbatim, nothing from any
other block. -/
def c6strpart : JValue → Option String
  | JValue.jobj fields => if isTextBlock fields then some (blockTextStr fields) else none
  | JValue.jstr s => some s
  | _ => none

/-- The amended claim's content: the newline join of the contributions in
list order. -/
def amendedBlockContent (blocks : List JValue) : String :=
  String.intercalate "\n" (blocks.filterMap c6strpart)

/-- The claim's literal reading: only blocks whose *declared type* is
`text` contribute; every other block — bare strings included — is
dropped. -/
def claimTextOnlyContent (blocks : List JValue) : String :=
  String.intercalate "\n" (blocks.filterMap (fun b =>
    match b with
    | JValue.jobj fields => if isTextBlock fields then some (blockTextStr fields) else none
    | _ => none))

/-- The amended claim's side condition: every text-typed dict block in the
list carries a string text value (or none at all, defaulting to empty) —
otherwise `"\n".join` raises `TypeError` in the program. -/
def textValuesOk (blocks : List JValue) : Bool :=
  blocks.all (fun b =>
    match b with
    | JValue.jobj fields =>
      !isTextBlock fields ||
        (match blockTextOf fields with
         | JValue.jstr _ => true
         | _ => false)
    | _ => true)

/-- C6 counterexample: on a block list holding one bare string "hello" —
a block with no declared type at all — the code's parsed content is
"hello", while the claim as stated predicts the empty message (every
non-text-typed block dropped). -/
theorem c6_counterexample :
    extractContent (JValue.jarr [JValue.jstr "hello"]) = Except.ok "hello" ∧
    claimTextOnlyContent [JValue.jstr "hello"] = "" := by
  exact ⟨rfl, rfl⟩

/-- The session content loop is the fold of its per-block contribution. -/
theorem foldl_contentStep (blocks : List JValue) :
    ∀ acc, blocks.foldl contentStep acc = acc ++ blocks.filterMap c6part := by
  induction blocks with
  | nil => intro acc; simp
  | cons b bs ih =>
    intro acc
    rw [List.foldl_cons, List.filterMap_cons, ih]
    cases b with
    | jobj fields =>
      by_cases hb : isTextBlock fields
      · simp [contentStep, c6part, hb]
      · simp [contentStep, c6part, hb]
    | jstr s => simp [contentStep, c6part]
    | jnull => simp [contentStep, c6part]
    | jbool bb => simp [contentStep, c6part]
    | jnum n => simp [contentStep, c6part]
    | jarr xs => simp [contentStep, c6part]

/-- A raw contribution known to be the string `s` reads back as `s` under
the amended claim's wording. -/
theorem blockTextStr_of_blockTextOf {fields : List (String × JValue)} {s : String}
    (h : blockTextOf fields = JValue.jstr s) : blockTextStr fields = s := by
  unfold blockTextOf at h
  unfold blockTextStr
  cases hl : jlookup fields "text" with
  | none =>
    rw [hl] at h
    simp only [Option.getD_none, JValue.jstr.injEq] at h
    exact h
  | some v =>
    rw [hl] at h
    simp only [Option.getD_some] at h
    rw [h]

/-- Under the side condition, the join's string check succeeds and yields
exactly the amended claim's per-block strings. -/
theorem asStrings_filterMap : ∀ blocks : List JValue, textValuesOk blocks = true →
    asStrings (blocks.filterMap c6part) = Except.ok (blocks.filterMap c6strpart) := by
  intro blocks
  induction blocks with
  | nil => intro h; rfl
  | cons b bs ih =>
    intro h
    rw [textValuesOk, List.all_cons, Bool.and_eq_true] at h
    rcases h with ⟨hb, hbs⟩
    rw [List.filterMap_cons, List.filterMap_cons]
    cases b with
    | jobj fields =>
      cases ht : isTextBlock fields with
      | false =>
        simp only [c6part, c6strpart, ht, Bool.false_eq_true, if_false]
        exact ih hbs
      | true =>
        have hstr : ∃ s, blockTextOf fields = JValue.jstr s := by
          simp only [ht, Bool.not_true, Bool.false_or] at hb
          cases hv : blockTextOf fields with
          | jstr s2 => exact ⟨s2, rfl⟩
          | jnull => rw [hv] at hb; simp at hb
          | jbool b2 => rw [hv] at hb; simp at hb
          | jnum n2 => rw [hv] at hb; simp at hb
          | jarr a2 => rw [hv] at hb; simp at hb
          | jobj f2 => rw [hv] at hb; simp at hb
        rcases hstr with ⟨s, hs⟩
        simp only [c6part, c6strpart, ht, if_true, hs, blockTextStr_of_blockTextOf hs]
        rw [asStrings, ih hbs]
        rfl
    | jstr s =>
      simp only [c6part, c6strpart]
      rw [asStrings, ih hbs]
      rfl
    | jnull => simp only [c6part, c6strpart]; exact ih hbs
    | jbool bb => simp only [c6part, c6strpart]; exact ih hbs
    | jnum n => simp only [c6part, c6strpart]; exact ih hbs
    | jarr xs => simp only [c6part, c6strpart]; exact ih hbs

/-- C6 amended: for every list-shaped message content in which each
text-typed dict block carries a string text value (or none), the parsed
content equals the newline join, in list order, of the texts of the
blocks whose declared type is `text` *and* of the bare string blocks kept
verbatim; dict blocks of any other declared type and all remaining block
shapes are dropped and contribute nothing.  (Without the side condition
the program raises `TypeError` at the join.) -/
theorem c6_list_content_joins_text_and_string_blocks :
    ∀ blocks : List JValue, textValuesOk blocks = true →
      extractContent (JValue.jarr blocks) = Except.ok (amendedBlockContent blocks) := by
  intro blocks h
  show pyJoinNl (contentParts blocks) = Except.ok (amendedBlockContent blocks)
  unfold contentParts pyJoinNl amendedBlockContent
  rw [foldl_contentStep, List.nil_append, asStrings_filterMap blocks h]
  rfl

/-- A concrete block list satisfying the side condition: a text block, a
non-text block, and a bare string. -/
def c6Blocks : List JValue :=
  [JValue.jobj [("type", JValue.jstr "text"), ("text", JValue.jstr "hi")],
   JValue.jobj [("type", JValue.jstr "image")],
   JValue.jstr "raw"]

/-- Witness for C6 at a concrete block list exercising all three block
kinds: the parse succeeds and joins the text block's text with the bare
string, dropping the image block. -/
theorem c6_witness :
    textValuesOk c6Blocks = true ∧
    extractContent (JValue.jarr c6Blocks) = Except.ok (amendedBlockContent c6Blocks) :=
  ⟨rfl, c6_list_content_joins_text_and_string_blocks c6Blocks rfl⟩

/-- C7: confirmed.  Whenever the optional source filter matches no stored
chunk, `MemSearch.flush` returns the empty summary and the deployment
state untouched: the store is unchanged (no writes), and both backend
traces are unchanged — neither the summarization backend nor the
embedding backend is invoked, whatever external backends are plugged in. -/
theorem c7_empty_flush_is_noop :
    ∀ (embedFn : List String → List Vector) (modelName : String)
      (summarizeFn : List Record → String) (dimension : Nat)
      (source : Option String) (st : SysState),
      (st.store.filter (MilvusStore.matchesFilter (flushFilterOf source))).isEmpty = true →
      MemSearch.flush embedFn modelName summarizeFn dimension source st = (st, "") := by
  intro embedFn modelName summarizeFn dimension source st h
  have hnil : st.store.filter (MilvusStore.matchesFilter (flushFilterOf source)) = [] := by
    simpa using h
  simp [MemSearch.flush, MilvusStore.search, hnil]

/-- A stored chunk from the document "a.md". -/
def c7rec : Record :=
  { chunk_hash := "c", embedding := [1], content := "c", source := "a.md",
    heading := "", heading_level := 0, start_line := 1, end_line := 1,
    doc_type := "markdown" }

/-- A state whose store holds only chunks of "a.md". -/
def c7State : SysState :=
  { store := [c7rec], cache := [], embedTrace := [], summarizeTrace := [] }

/-- Witness for C7: flushing with source filter "b.md" against a store
holding only "a.md" chunks matches nothing and is a no-op. -/
theorem c7_witness :
    (c7State.store.filter (MilvusStore.matchesFilter (flushFilterOf (some "b.md")))).isEmpty
      = true ∧
    MemSearch.flush constEmbedFn "m" (fun _ => "summary") 4 (some "b.md") c7State
      = (c7State, "") :=
  ⟨by decide,
   c7_empty_flush_is_noop constEmbedFn "m" (fun _ => "summary") 4 (some "b.md") c7State
     (by decide)⟩

/-- Nothing with the deleted source survives `delete_by_source`. -/
theorem filter_delete_by_source (p : String) (l : List Record) :
    (MilvusStore.delete_by_source p l).filter (fun r => r.source == p) = [] := by
  unfold MilvusStore.delete_by_source
  induction l with
  | nil => rfl
  | cons r t ih =>
    by_cases hr : r.source == p
    · simp [List.filter_cons, hr, ih]
    · simp [List.filter_cons, hr, ih]

/-- C8: confirmed.  For every path and every prior deployment state, the
watcher callback `_on_change` processes a `deleted` event for the path
without error, and afterwards the Vector Store contains zero records whose
source equals that path, regardless of how many it held before. -/
theorem c8_deleted_event_purges_source :
    ∀ (embedFn : List String → List Vector) (modelName : String)
      (fs : FileSystem) (p : String) (st : SysState),
      ∃ st1, onChange embedFn modelName fs "deleted" p st = Except.ok st1 ∧
        st1.store.filter (fun r => r.source == p) = [] := by
  intro embedFn modelName fs p st
  refine ⟨_, rfl, ?_⟩
  exact filter_delete_by_source p st.store

/-- What one walked tree guarantees about an emitted path: it extends the
walk prefix with the tree's own name, and every later segment — file name
included — is non-hidden. -/
def cleanOut (fs : FS) (p q : List String) : Prop :=
  ∃ rest, q = p ++ fsName fs :: rest ∧ ∀ s ∈ rest, pyStartsWith s "." = false

/-- A path emitted by the file loop of one walked directory names a
non-hidden file directly inside it. -/
theorem mem_hereFiles : ∀ (children : List FS) (p q : List String),
    q ∈ hereFiles true p children →
    ∃ f, q = p ++ [f] ∧ pyStartsWith f "." = false := by
  intro children
  induction children with
  | nil => intro p q h; simp [hereFiles] at h
  | cons c cs ih =>
    intro p q h
    cases c with
    | dir d dcs => exact ih p q h
    | file f =>
      cases hf : pyStartsWith f "." with
      | true =>
        refine ih p q ?_
        simpa [hereFiles, List.foldr_cons, hf] using h
      | false =>
        have h2 : q = p ++ [f] ∨ q ∈ hereFiles true p cs := by
          simpa [hereFiles, List.foldr_cons, hf] using h
        rcases h2 with h2 | h2
        · exact ⟨f, h2, hf⟩
        · exact ih p q h2

/-- Cleanliness of the walk, by strong induction on the tree size: with
hidden-pruning on, every emitted path is the walked directory's name
followed by non-hidden segments only. -/
theorem walkFS_clean_aux :
    ∀ (n : Nat) (fs : FS) (p q : List String), sizeOf fs ≤ n →
      q ∈ walkFS true p fs → cleanOut fs p q := by
  intro n
  induction n with
  | zero =>
    intro fs p q hn hq
    cases fs with
    | file name => simp only [FS.file.sizeOf_spec] at hn; omega
    | dir name children => simp only [FS.dir.sizeOf_spec] at hn; omega
  | succ n ih =>
    intro fs p q hn hq
    cases fs with
    | file name => rw [walkFS] at hq; simp at hq
    | dir name children =>
      rw [walkFS] at hq
      rcases List.mem_append.mp hq with h1 | h2
      · rcases mem_hereFiles children (p ++ [name]) q h1 with ⟨f, hqe, hf⟩
        refine ⟨[f], ?_, ?_⟩
        · rw [hqe]; simp [fsName]
        · intro s hs
          rw [List.mem_singleton] at hs
          subst hs
          exact hf
      · have hsz : ∀ c ∈ children, sizeOf c ≤ n := by
          intro c hc
          have hlt := List.sizeOf_lt_of_mem hc
          have hdir : sizeOf (FS.dir name children) ≤ n + 1 := hn
          simp only [FS.dir.sizeOf_spec] at hdir
          omega
        have hc : ∀ (cs : List FS), (∀ c ∈ cs, sizeOf c ≤ n) →
            ∀ q2, q2 ∈ walkChildren true (p ++ [name]) cs →
              ∃ rest, q2 = (p ++ [name]) ++ rest ∧
                ∀ s ∈ rest, pyStartsWith s "." = false := by
          intro cs
          induction cs with
          | nil => intro _ q2 hq2; simp [walkChildren] at hq2
          | cons c cc ihc =>
            intro hsz2 q2 hq2
            rw [walkChildren.eq_def] at hq2
            simp only [List.mem_append] at hq2
            rcases hq2 with hl | hr
            · cases c with
              | file f => simp at hl
              | dir d dcs =>
                cases hd : pyStartsWith d "." with
                | true => simp [hd] at hl
                | false =>
                  have hl2 : q2 ∈ walkFS true (p ++ [name]) (FS.dir d dcs) := by
                    simpa [hd] using hl
                  have hclean := ih (FS.dir d dcs) (p ++ [name]) q2
                    (hsz2 _ (by simp)) hl2
                  rcases hclean with ⟨rest, hqe, hrest⟩
                  refine ⟨d :: rest, ?_, ?_⟩
                  · rw [hqe]; simp [fsName]
                  · intro s hs
                    rcases List.mem_cons.mp hs with hs | hs
                    · subst hs; exact hd
                    · exact hrest s hs
            · exact ihc (fun c hc2 => hsz2 c (List.mem_cons_of_mem _ hc2)) q2 hr
        rcases hc children hsz q h2 with ⟨rest, hqe, hrest⟩
        refine ⟨rest, ?_, hrest⟩
        rw [hqe]
        simp [fsName]

/-- Clean-walk theorem at the natural size bound. -/
theorem walkFS_clean (fs : FS) (p q : List String) (h : q ∈ walkFS true p fs) :
    cleanOut fs p q :=
  walkFS_clean_aux (sizeOf fs) fs p q (Nat.le_refl _) h

/-- Insertion into the sorted output introduces no new path. -/
theorem mem_insertByKey {q x : List String} : ∀ {l : List (List String)},
    q ∈ insertByKey x l → q = x ∨ q ∈ l := by
  intro l
  induction l with
  | nil =>
    intro h
    rw [insertByKey] at h
    exact Or.inl (by simpa using h)
  | cons y ys ih =>
    intro h
    rw [insertByKey] at h
    split at h
    · rcases List.mem_cons.mp h with h | h
      · exact Or.inl h
      · exact Or.inr h
    · rcases List.mem_cons.mp h with h | h
      · exact Or.inr (by simp [h])
      · rcases ih h with h | h
        · exact Or.inl h
        · exact Or.inr (List.mem_cons_of_mem _ h)

/-- The final sort introduces no new path. -/
theorem mem_sortByKey {q : List String} : ∀ {l : List (List String)},
    q ∈ sortByKey l → q ∈ l := by
  intro l
  induction l with
  | nil => intro h; simp [sortByKey] at h
  | cons x xs ih =>
    intro h
    rw [sortByKey] at h
    rcases mem_insertByKey h with h | h
    · simp [h]
    · exact List.mem_cons_of_mem _ (ih h)

/-- Every result `_maybe_add` accumulates was already a result or one of
the candidates offered to it. -/
theorem mem_maybeAdd_fold : ∀ (cands : List (List String)) (st : ScanState)
    (q : List String),
    q ∈ (cands.foldl maybeAdd st).results → q ∈ st.results ∨ q ∈ cands := by
  intro cands
  induction cands with
  | nil => intro st q h; exact Or.inl h
  | cons c cs ih =>
    intro st q h
    rw [List.foldl_cons] at h
    rcases ih (maybeAdd st c) q h with h | h
    · unfold maybeAdd at h
      split at h
      · exact Or.inl h
      · split at h
        · exact Or.inl h
        · simp only at h
          rcases List.mem_append.mp h with h | h
          · exact Or.inl h
          · rw [List.mem_singleton] at h
            subst h
            exact Or.inr (by simp)
    · exact Or.inr (List.mem_cons_of_mem _ h)

/-- Every path a scan returns came from one of its roots. -/
theorem mem_scan_fold : ∀ (roots : List FS) (st : ScanState) (q : List String),
    q ∈ (roots.foldl (fun st r => (scanRoot true r).foldl maybeAdd st) st).results →
    q ∈ st.results ∨ ∃ r ∈ roots, q ∈ scanRoot true r := by
  intro roots
  induction roots with
  | nil => intro st q h; exact Or.inl h
  | cons r rs ih =>
    intro st q h
    rw [List.foldl_cons] at h
    rcases ih _ q h with h | h
    · rcases mem_maybeAdd_fold _ _ _ h with h | h
      · exact Or.inl h
      · exact Or.inr ⟨r, by simp, h⟩
    · rcases h with ⟨r2, hr2, hq2⟩
      exact Or.inr ⟨r2, by simp [hr2], hq2⟩

/-- What the amended claim guarantees for one returned path, relative to
the root that produced it: a file root is returned as-is (the code applies
no hidden-name check there), while everything a directory root's
traversal emits is the root's name followed by non-hidden segments only —
hidden files are skipped and hidden subdirectories contribute nothing. -/
def fromRootOK (r : FS) (q : List String) : Prop :=
  match r with
  | FS.file n => q = [n]
  | FS.dir n _ => ∃ rest, q = n :: rest ∧ ∀ s ∈ rest, pyStartsWith s "." = false

/-- C9 counterexample: the claim fails as stated — a hidden markdown file
passed explicitly as a root is returned by a default-settings scan, so the
result can contain a file whose name starts with a dot: the file-root
branch of `scan_paths` calls `_maybe_add` without any hidden-name check. -/
theorem c9_counterexample :
    [".x.md"] ∈ scan_paths [FS.file ".x.md"] true ∧
    pyStartsWith ".x.md" "." = true := by
  exact ⟨by decide, by decide⟩

/-- C9 amended: in a default-settings scan, every returned file either
was passed explicitly as a root (and is returned even if hidden), or was
discovered by walking a directory root, in which case neither its file
name nor any directory segment below that root is hidden; and a hidden
directory prunes its entire subtree from the traversal — the walk's
output does not depend on what the hidden directory contains. -/
theorem c9_hidden_pruned_below_directory_roots :
    (∀ (roots : List FS) (q : List String), q ∈ scan_paths roots true →
       ∃ r ∈ roots, fromRootOK r q) ∧
    (∀ (p : List String) (nm hid : String) (t cs : List FS),
       pyStartsWith hid "." = true →
       walkFS true p (FS.dir nm (FS.dir hid t :: cs))
         = walkFS true p (FS.dir nm cs)) := by
  constructor
  · intro roots q hq
    unfold scan_paths at hq
    rcases mem_scan_fold roots _ q (mem_sortByKey hq) with h | ⟨r, hr, hqr⟩
    · simp at h
    · refine ⟨r, hr, ?_⟩
      cases r with
      | file n =>
        simp only [scanRoot, List.mem_singleton] at hqr
        simpa [fromRootOK] using hqr
      | dir n cs =>
        rcases walkFS_clean (FS.dir n cs) [] q hqr with ⟨rest, hqe, hrest⟩
        exact ⟨rest, by simpa [fsName] using hqe, hrest⟩
  · intro p nm hid t cs h
    rw [walkFS, walkFS]
    congr 1
    rw [walkChildren]
    simp [h]

/-- Witness for C9 at concrete inputs: a file found under a directory root
satisfies the amended guarantee, and a hidden subdirectory's contents are
invisible to the walk. -/
theorem c9_witness :
    (∃ r ∈ [FS.dir "d" [FS.file "a.md"]], fromRootOK r ["d", "a.md"]) ∧
    walkFS true [] (FS.dir "d" [FS.dir ".h" [FS.file "z.md"], FS.file "a.md"])
      = walkFS true [] (FS.dir "d" [FS.file "a.md"]) :=
  ⟨c9_hidden_pruned_below_directory_roots.1 [FS.dir "d" [FS.file "a.md"]]
     ["d", "a.md"] (by decide),
   c9_hidden_pruned_below_directory_roots.2 [] "d" ".h" [FS.file "z.md"]
     [FS.file "a.md"] (by decide)⟩

/-- C10 counterexample: the claim fails as stated — a path referring to a
directory refers to no existing *file*, yet `parse_session_file` raises
instead of returning the empty list: `Path.exists()` is true for a
directory, so the guard is passed and `read_text` raises
`IsADirectoryError`. -/
theorem c10_counterexample :
    parse_session_file (fun _ => none) [("logs", FsEntry.dirEntry)] "logs"
      = Except.error "IsADirectoryError" := by
  rfl

/-- C10 amended: for every path at which nothing exists — no file and no
directory — `parse_session_file` returns the empty list of sessions and
raises no exception, whatever JSON decoder behaviour is plugged in. -/
theorem c10_missing_path_yields_no_sessions :
    ∀ (jsonParse : String → Option JValue) (fs : FileSystem) (path : String),
      fs.lookup path = none →
      parse_session_file jsonParse fs path = Except.ok [] := by
  intro jsonParse fs path h
  unfold parse_session_file
  rw [h]

/-- Witness for C10 on an empty filesystem. -/
theorem c10_witness :
    (([] : FileSystem).lookup "missing.jsonl" = none) ∧
    parse_session_file (fun _ => none) [] "missing.jsonl" = Except.ok [] :=
  ⟨rfl, c10_missing_path_yields_no_sessions (fun _ => none) [] "missing.jsonl" rfl⟩
